import Mathlib

/-!
Shallow embedding of the Scribe synchronization core (src/js/sync.js,
src/js/attachment-sync.js, src/js/db.js) and proofs of the spec's
testable properties about it.

Modelling conventions:
* `updatedAt` timestamps are the millisecond values produced by
  `new Date(s).getTime()`, modelled as integers.
* JavaScript `Map` objects keyed by `id` are modelled as insertion-ordered
  lists with a set-or-replace operation (`mapSet`), matching `Map.set`
  semantics (replace keeps the position, a new key is appended) and
  `Array.from(map.values())` enumeration order.
* Asynchronous collaborator calls (IndexedDB wrappers, provider methods)
  either resolve or reject; each is modelled as an `Except String`
  outcome supplied by an environment record, and every call is recorded
  in an effect trace so that statements about "which calls happened, in
  which order" can be made.
* A JavaScript value that may be `undefined`, a `Blob`, or a `{id, blob}`
  record is modelled by `JsVal`; `undefined`/`null` are the falsy case.
-/

deriving instance DecidableEq for Except

namespace Scribe

/-- A JavaScript value as it flows through the attachment blob store:
`undefined`/`null`, a `Blob` (its content abstracted as a string), or an
`{id, blob}` record as stored by `saveAttachment`. -/
inductive JsVal where
  | undefined
  | blob (content : String)
  | record (id : String) (blobField : JsVal)
deriving DecidableEq

/-- JavaScript truthiness of a `JsVal` (`undefined`/`null` are falsy;
objects and Blobs are truthy). -/
def JsVal.truthy : JsVal → Bool
  | .undefined => false
  | _ => true

/-- JavaScript property access `v.blob`: defined on the `{id, blob}`
record, `undefined` on anything else (a `Blob` has no `blob` property). -/
def JsVal.blobProp : JsVal → JsVal
  | .record _ b => b
  | _ => .undefined

/-- Attachment metadata (spec §3): embedded in an Idea's `attachments`
sequence. -/
structure AttachMeta where
  id : String
  filename : String
  mimeType : String
  remoteId : Option String
  syncStatus : String
  syncError : Option String
deriving DecidableEq

/-- An Idea record as the sync engine sees it: the merge logic in
`mergeIdeas` only reads `id`, `updatedAt` and `pendingSync`; the
remaining variant payload is abstracted as `content`, and `attachments`
carries the owned attachment metadata (used by `deleteIdea`). -/
structure Idea where
  id : String
  updatedAt : Int
  pendingSync : Bool
  attachments : List AttachMeta
  content : String
deriving DecidableEq

/-- `Map.get(id)` over the insertion-ordered merge map. -/
def mapGet (m : List Idea) (k : String) : Option Idea :=
  m.find? (fun y => y.id == k)

/-- `Map.set(x.id, x)`: replace in place when the key is present,
append when it is new. -/
def mapSet (m : List Idea) (x : Idea) : List Idea :=
  if m.any (fun y => y.id == x.id) then
    m.map (fun y => if y.id == x.id then x else y)
  else
    m ++ [x]

/-- Result of `mergeIdeas`: the JS object `{local, toUpload}` (the field
`local` is a Lean keyword, hence `localMerged`). -/
structure MergeResult where
  localMerged : List Idea
  toUpload : List Idea
deriving DecidableEq

/-- One step of the remote loop of `mergeIdeas` (sync.js lines 184-202). -/
def mergeStep (acc : List Idea × List Idea) (remoteIdea : Idea) :
    List Idea × List Idea :=
  match mapGet acc.1 remoteIdea.id with
  | none => (mapSet acc.1 { remoteIdea with pendingSync := false }, acc.2)
  | some localIdea =>
      if remoteIdea.updatedAt > localIdea.updatedAt then
        (mapSet acc.1 { remoteIdea with pendingSync := false }, acc.2)
      else if localIdea.updatedAt > remoteIdea.updatedAt then
        (acc.1, acc.2 ++ [localIdea])
      else
        acc

/-- `mergeIdeas(local, remote, lastSync)` from sync.js lines 174-208
(`lastSync` is unused by the merge, as in the source). -/
def mergeIdeas (localIdeas remote : List Idea) : MergeResult :=
  let merged := localIdeas.foldl mapSet []
  let p := remote.foldl mergeStep (merged, [])
  ⟨p.1, p.2⟩

/-- The sync status values of sync.js (`SyncStatus` enum). -/
inductive SStatus where
  | idle
  | syncing
  | error
deriving DecidableEq

/-- A provider object as far as the record sync engine inspects it:
only its `name` is read by sync.js; its `fetch`/`push` behaviour lives
in the environment (`SyncEnv`), keyed by the provider name. -/
structure ProviderObj where
  name : String
deriving DecidableEq

/-- The module-level mutable state of sync.js: the status flag and the
provider registry (`Map` name → provider, in registration order). -/
structure SyncState where
  status : SStatus
  providers : List ProviderObj
deriving DecidableEq

/-- `syncProviders.get(name)`. -/
def lookupProvider (ps : List ProviderObj) (s : String) : Option ProviderObj :=
  ps.find? (fun p => p.name == s)

/-- The remote dataset returned by `provider.fetch()`; `ideas` may be
absent (`remoteData.ideas || []` in the source). -/
structure RemoteData where
  ideas : Option (List Idea)
deriving DecidableEq

/-- The payload handed to `provider.push`. -/
structure PushPayload where
  ideas : List Idea
  lastModified : String
deriving DecidableEq

/-- The structured result object returned by `syncToProvider`:
`{success, error?, merged?}` with absent fields as `none`. -/
structure SyncResult where
  success : Bool
  error : Option String
  merged : Option Nat
deriving DecidableEq

/-- Observable calls made during a sync cycle, in order: listener
notifications, Local Store operations and provider calls. -/
inductive SEffect where
  | notify (s : SStatus)
  | dbGetAllIdeas
  | dbGetPendingSyncIdeas
  | dbGetSyncMeta (key : String)
  | providerFetch (name : String)
  | dbBulkSaveIdeas (ideas : List Idea)
  | providerPush (name : String) (payload : PushPayload)
  | dbMarkSynced (id : String)
  | dbSetSyncMeta (key value : String)
deriving DecidableEq

/-- The behaviour of the collaborators of one sync run: each Local Store
wrapper from db.js and each provider method either resolves (`.ok`) or
rejects (`.error message`); `now` is the clock (`new Date().toISOString()`). -/
structure SyncEnv where
  getAllIdeas : Except String (List Idea)
  getPendingSyncIdeas : Except String (List Idea)
  getSyncMeta : String → Except String (Option String)
  fetch : String → Except String RemoteData
  bulkSaveIdeas : List Idea → Except String Unit
  push : String → PushPayload → Except String Unit
  markSynced : String → Except String Unit
  setSyncMeta : String → String → Except String Unit
  now : String

/-- The `for (const idea of pendingIdeas) await markSynced(idea.id)` loop
(sync.js lines 150-152); the first rejection aborts the loop. -/
def markAll (env : SyncEnv) : List Idea → Except String Unit × List SEffect
  | [] => (.ok (), [])
  | i :: rest =>
    match env.markSynced i.id with
    | .error e => (.error e, [.dbMarkSynced i.id])
    | .ok _ =>
      let p := markAll env rest
      (p.1, .dbMarkSynced i.id :: p.2)

/-- The body of the `try` block of `syncToProvider` (sync.js lines
127-161): get local data, fetch, merge, persist, conditionally push and
mark synced, record the sync time, and return the merged count.  Any
rejection short-circuits with that error. -/
def runCycle (pname : String) (env : SyncEnv) : Except String Nat × List SEffect :=
  let tr1 : List SEffect := [.dbGetAllIdeas]
  match env.getAllIdeas with
  | .error e => (.error e, tr1)
  | .ok localIdeas =>
  let tr2 := tr1 ++ [.dbGetPendingSyncIdeas]
  match env.getPendingSyncIdeas with
  | .error e => (.error e, tr2)
  | .ok pendingIdeas =>
  let metaKey := "lastSync-" ++ pname
  let tr3 := tr2 ++ [.dbGetSyncMeta metaKey]
  match env.getSyncMeta metaKey with
  | .error e => (.error e, tr3)
  | .ok _lastSync =>
  let tr4 := tr3 ++ [.providerFetch pname]
  match env.fetch pname with
  | .error e => (.error e, tr4)
  | .ok remoteData =>
  let merged := mergeIdeas localIdeas (remoteData.ideas.getD [])
  let tr5 := tr4 ++ [.dbBulkSaveIdeas merged.localMerged]
  match env.bulkSaveIdeas merged.localMerged with
  | .error e => (.error e, tr5)
  | .ok _ =>
  let afterPush : Except String Unit × List SEffect :=
    if merged.toUpload.length > 0 ∨ pendingIdeas.length > 0 then
      let payload : PushPayload := ⟨merged.localMerged, env.now⟩
      match env.push pname payload with
      | .error e => (.error e, [.providerPush pname payload])
      | .ok _ =>
        let m := markAll env pendingIdeas
        (m.1, .providerPush pname payload :: m.2)
    else
      (.ok (), [])
  match afterPush with
  | (.error e, trp) => (.error e, tr5 ++ trp)
  | (.ok _, trp) =>
  let tr6 := tr5 ++ trp ++ [.dbSetSyncMeta metaKey env.now]
  match env.setSyncMeta metaKey env.now with
  | .error e => (.error e, tr6)
  | .ok _ => (.ok merged.localMerged.length, tr6)

/-- `syncToProvider` after the string-argument resolution: the guard, the
status transitions and the `try`/`catch` around `runCycle` (sync.js lines
117-167).  `p? = none` is the JS case of a `null`/`undefined` argument:
reading `provider.name` (line 125, outside the `try`) throws, which the
outer `Except` layer records as an escaping exception. -/
def syncToProviderBody (p? : Option ProviderObj) (st : SyncState) (env : SyncEnv) :
    Except String SyncResult × SyncState × List SEffect :=
  if st.status = SStatus.syncing then
    (.ok ⟨false, some "Sync already in progress", none⟩, st, [])
  else
    let st1 : SyncState := { st with status := SStatus.syncing }
    match p? with
    | none =>
      (.error "TypeError: Cannot read properties of null (reading 'name')",
       st1, [.notify SStatus.syncing])
    | some p =>
      match runCycle p.name env with
      | (.ok n, tr) =>
        (.ok ⟨true, none, some n⟩, { st1 with status := SStatus.idle },
         .notify SStatus.syncing :: tr ++ [.notify SStatus.idle])
      | (.error e, tr) =>
        (.ok ⟨false, some e, none⟩, { st1 with status := SStatus.error },
         .notify SStatus.syncing :: tr ++ [.notify SStatus.error])

/-- The argument of `syncToProvider`: a provider object, a provider name
string, or a nullish value (`null`/`undefined`). -/
inductive SyncArg where
  | obj (p : ProviderObj)
  | str (s : String)
  | nullish
deriving DecidableEq

/-- `syncToProvider(provider)` (sync.js lines 108-168).  A string
argument is looked up in the registry first; the lookup failure message
interpolates the already-reassigned (hence `undefined`) variable, as the
source does. -/
def syncToProvider (arg : SyncArg) (st : SyncState) (env : SyncEnv) :
    Except String SyncResult × SyncState × List SEffect :=
  match arg with
  | .str s =>
    match lookupProvider st.providers s with
    | none => (.ok ⟨false, some "Provider 'undefined' not found", none⟩, st, [])
    | some p => syncToProviderBody (some p) st env
  | .obj p => syncToProviderBody (some p) st env
  | .nullish => syncToProviderBody none st env

/-- One entry of `sync()`'s result list: `{provider, ...result}`. -/
structure ProviderResult where
  provider : String
  success : Bool
  error : Option String
  merged : Option Nat
deriving DecidableEq

/-- The overall result object of `sync()`. -/
structure SyncAllResult where
  success : Bool
  results : List ProviderResult
deriving DecidableEq

/-- The provider loop of `sync()` (sync.js lines 91-95), threading the
status state and collecting per-provider results. -/
def syncAll (ps : List ProviderObj) (st : SyncState) (env : SyncEnv) :
    Except String (List ProviderResult) × SyncState × List SEffect :=
  match ps with
  | [] => (.ok [], st, [])
  | p :: rest =>
    match syncToProvider (.obj p) st env with
    | (.error e, st1, tr) => (.error e, st1, tr)
    | (.ok r, st1, tr) =>
      match syncAll rest st1 env with
      | (.error e, st2, tr2) => (.error e, st2, tr ++ tr2)
      | (.ok rs, st2, tr2) =>
        (.ok (⟨p.name, r.success, r.error, r.merged⟩ :: rs), st2, tr ++ tr2)

/-- `sync()` (sync.js lines 84-102): a no-op success with an empty result
list when no provider is registered, otherwise one cycle per registered
provider with overall success the conjunction of the individual ones. -/
def sync (st : SyncState) (env : SyncEnv) :
    Except String SyncAllResult × SyncState × List SEffect :=
  if st.providers.isEmpty then
    (.ok ⟨true, []⟩, st, [])
  else
    match syncAll st.providers st env with
    | (.error e, st1, tr) => (.error e, st1, tr)
    | (.ok rs, st1, tr) => (.ok ⟨rs.all (fun r => r.success), rs⟩, st1, tr)

/-!  db.js: the IndexedDB-backed Local Store.  Object stores are
modelled as lists of rows in key order is not needed by any claim, so
insertion-ordered association lists with key-replace semantics are used. -/

/-- The two object stores touched by `deleteIdea` and the attachment
operations: the `ideas` store (keyPath `id`) and the `attachments` blob
store (keyPath `id`, rows are the `{id, blob}` records put there by
`saveAttachment`). -/
structure Database where
  ideas : List Idea
  attachments : List (String × JsVal)
deriving DecidableEq

/-- `objectStore.delete(key)` on the attachments store. -/
def idbDeleteRow (rows : List (String × JsVal)) (key : String) :
    List (String × JsVal) :=
  rows.filter (fun kv => kv.1 != key)

/-- `objectStore.get(key)` on the ideas store. -/
def idbGetIdea (rows : List Idea) (key : String) : Option Idea :=
  rows.find? (fun y => y.id == key)

/-- `db.js saveAttachment(id, blob)` (lines 219-224): puts the record
`{id, blob}` into the attachments store. -/
def dbSaveAttachment (rows : List (String × JsVal)) (id : String)
    (blob : JsVal) : List (String × JsVal) :=
  if rows.any (fun kv => kv.1 == id) then
    rows.map (fun kv => if kv.1 == id then (id, JsVal.record id blob) else kv)
  else
    rows ++ [(id, JsVal.record id blob)]

/-- `db.js getAttachment(id)` (lines 229-235): reads the stored row and
returns `result?.blob` — the bare blob, `undefined` when absent. -/
def dbGetAttachment (rows : List (String × JsVal)) (id : String) : JsVal :=
  match rows.find? (fun kv => kv.1 == id) with
  | some kv => kv.2.blobProp
  | none => JsVal.undefined

/-- `db.js deleteIdea(id)` (lines 168-183): reads the idea, deletes the
blob row of every attachment listed on it, then deletes the idea row. -/
def deleteIdea (db : Database) (id : String) : Database :=
  let idea? := idbGetIdea db.ideas id
  let atts :=
    match idea? with
    | some idea => idea.attachments.foldl (fun rows a => idbDeleteRow rows a.id) db.attachments
    | none => db.attachments
  { ideas := db.ideas.filter (fun y => y.id != id), attachments := atts }

/-!  attachment-sync.js: the attachment sync engine.  Its Local Store
reads go through the imported `getAttachment`, modelled as an
environment function so that both the real db.js behaviour
(`dbGetAttachment`) and the behaviour its unit tests mock can be
plugged in.  Writes and provider calls are recorded in a trace. -/

/-- The capability surface of an attachment provider as feature-detected
by attachment-sync.js (presence of each optional method). -/
structure AttachProvider where
  name : String
  hasUploadAttachment : Bool
  hasDownloadAttachment : Bool
  hasDeleteAttachment : Bool
  hasListAttachments : Bool
deriving DecidableEq

/-- Behaviour of the collaborators of the attachment engine:
`getAttachment` is the Local Store blob lookup, `uploadResult` the
outcome of `provider.uploadAttachment` (keyed by the attachment id
passed to it), `downloadResult` the outcome of
`provider.downloadAttachment` (keyed by remote id). -/
structure AttachEnv where
  getAttachment : String → JsVal
  uploadResult : String → Except String String
  downloadResult : String → Except String String

/-- Observable calls of the attachment engine, in order. -/
inductive AEffect where
  | getAttachment (id : String)
  | updateAttachment (att : AttachMeta)
  | saveAttachment (id : String) (blob : String)
  | providerUpload (id filename : String) (blob : JsVal) (mimeType : String)
  | providerDownload (remoteId : String)
deriving DecidableEq

/-- Modelled from the spec: attachment-sync.js line 9 imports
`updateAttachment` from db.js, but db.js defines no such function (only
its callers and its test mocks exist in the repository).  Per spec §4.2
it persists attachment metadata; modelled as an upsert of the metadata
record, keyed by `id`, into a metadata table of the Local Store. -/
def updateAttachment (rows : List AttachMeta) (att : AttachMeta) :
    List AttachMeta :=
  if rows.any (fun y => y.id == att.id) then
    rows.map (fun y => if y.id == att.id then att else y)
  else
    rows ++ [att]

/-- `uploadAttachment(attachment, blob)` (attachment-sync.js lines
43-88): configuration guards, persist `syncing` metadata, call the
provider, persist `synced`+remoteId on success or `error`+message on
failure (re-raising the failure).  Returns the outcome, the metadata
table after the run, and the call trace. -/
def uploadAttachment (prov : Option AttachProvider) (env : AttachEnv)
    (metas : List AttachMeta) (att : AttachMeta) (blob : JsVal) :
    Except String AttachMeta × List AttachMeta × List AEffect :=
  match prov with
  | none => (.error "No sync provider configured", metas, [])
  | some p =>
    if !p.hasUploadAttachment then
      (.error "Provider does not support attachment upload", metas, [])
    else
      let syncingAtt := { att with syncStatus := "syncing" }
      let metas1 := updateAttachment metas syncingAtt
      let tr1 : List AEffect :=
        [.updateAttachment syncingAtt,
         .providerUpload att.id att.filename blob att.mimeType]
      match env.uploadResult att.id with
      | .ok rid =>
        let syncedAtt := { att with remoteId := some rid, syncStatus := "synced" }
        (.ok syncedAtt, updateAttachment metas1 syncedAtt,
         tr1 ++ [.updateAttachment syncedAtt])
      | .error e =>
        let errAtt := { att with syncStatus := "error", syncError := some e }
        (.error e, updateAttachment metas1 errAtt,
         tr1 ++ [.updateAttachment errAtt])

/-- `downloadAttachment(attachment)` (attachment-sync.js lines 95-121):
configuration guards, cache-first Local Store lookup (`local &&
local.blob`), otherwise provider download and local caching (the
`saveAttachment` write is recorded in the trace).  Returns the produced
blob value and the call trace. -/
def downloadAttachment (prov : Option AttachProvider) (env : AttachEnv)
    (att : AttachMeta) :
    Except String JsVal × List AEffect :=
  match prov with
  | none => (.error "No sync provider configured", [])
  | some p =>
    if !p.hasDownloadAttachment then
      (.error "Provider does not support attachment download", [])
    else
      match att.remoteId with
      | none => (.error "Attachment has no remote ID", [])
      | some rid =>
        let localVal := env.getAttachment att.id
        let tr1 : List AEffect := [.getAttachment att.id]
        if localVal.truthy && localVal.blobProp.truthy then
          (.ok localVal.blobProp, tr1)
        else
          match env.downloadResult rid with
          | .error e => (.error e, tr1 ++ [.providerDownload rid])
          | .ok content =>
            (.ok (JsVal.blob content),
             tr1 ++ [.providerDownload rid, .saveAttachment att.id content])

/-- The result object of `syncAttachments`: `{uploaded, downloaded,
errors}` where an error entry is `{attachment: filename, error: message}`. -/
structure AttachError where
  attachment : String
  error : String
deriving DecidableEq

/-- See `AttachError`. -/
structure SyncAttachResult where
  uploaded : Nat
  downloaded : Nat
  errors : List AttachError
deriving DecidableEq

/-- One iteration of the `for` loop of `syncAttachments`
(attachment-sync.js lines 160-183), with its surrounding `try`/`catch`:
`local`-status attachments with a locally found truthy blob are
uploaded, `synced`-status ones with a remote id but no local blob are
downloaded, anything else is skipped; any failure becomes an error
entry keyed by the filename. -/
def syncAttachmentStep (prov : Option AttachProvider) (env : AttachEnv)
    (acc : SyncAttachResult × List AttachMeta × List AEffect)
    (att : AttachMeta) :
    SyncAttachResult × List AttachMeta × List AEffect :=
  let res := acc.1
  let metas := acc.2.1
  let tr := acc.2.2
  if att.syncStatus == "local" then
    let localVal := env.getAttachment att.id
    let tr1 := tr ++ [AEffect.getAttachment att.id]
    if localVal.truthy && localVal.blobProp.truthy then
      match uploadAttachment prov env metas att localVal.blobProp with
      | (.ok _, metas1, trU) =>
        ({ res with uploaded := res.uploaded + 1 }, metas1, tr1 ++ trU)
      | (.error e, metas1, trU) =>
        ({ res with errors := res.errors ++ [⟨att.filename, e⟩] }, metas1, tr1 ++ trU)
    else
      (res, metas, tr1)
  else if att.syncStatus == "synced" && att.remoteId.isSome then
    let localVal := env.getAttachment att.id
    let tr1 := tr ++ [AEffect.getAttachment att.id]
    if !(localVal.truthy && localVal.blobProp.truthy) then
      match downloadAttachment prov env att with
      | (.ok _, trD) =>
        ({ res with downloaded := res.downloaded + 1 }, metas, tr1 ++ trD)
      | (.error e, trD) =>
        ({ res with errors := res.errors ++ [⟨att.filename, e⟩] }, metas, tr1 ++ trD)
    else
      (res, metas, tr1)
  else
    (res, metas, tr)

/-- `syncAttachments(attachments)` (attachment-sync.js lines 149-186):
the zero result when no provider is configured, otherwise the loop over
the given attachments. -/
def syncAttachments (prov : Option AttachProvider) (env : AttachEnv)
    (metas : List AttachMeta) (atts : List AttachMeta) :
    SyncAttachResult × List AttachMeta × List AEffect :=
  match prov with
  | none => (⟨0, 0, []⟩, metas, [])
  | some _ => atts.foldl (syncAttachmentStep prov env) (⟨0, 0, []⟩, metas, [])

/-- A concrete, everything-succeeds environment used by witnesses. -/
def envW : SyncEnv where
  getAllIdeas := .ok []
  getPendingSyncIdeas := .ok []
  getSyncMeta := fun _ => .ok none
  fetch := fun _ => .ok ⟨some []⟩
  bulkSaveIdeas := fun _ => .ok ()
  push := fun _ _ => .ok ()
  markSynced := fun _ => .ok ()
  setSyncMeta := fun _ _ => .ok ()
  now := "2024-01-01T00:00:00.000Z"

/-- A concrete environment holding one local-only pending record. -/
def envW7 : SyncEnv :=
  { envW with
    getAllIdeas := .ok [⟨"w", 3, true, [], "pending note"⟩]
    getPendingSyncIdeas := .ok [⟨"w", 3, true, [], "pending note"⟩] }

/-! ## Helper lemmas about the merge map -/

/-- Truthiness evaluation lemmas. -/
@[simp] theorem JsVal.truthy_undef : JsVal.undefined.truthy = false := rfl

/-- See `JsVal.truthy_undef`. -/
@[simp] theorem JsVal.truthy_blob (c : String) : (JsVal.blob c).truthy = true := rfl

/-- See `JsVal.truthy_undef`. -/
@[simp] theorem JsVal.truthy_record (i : String) (b : JsVal) :
    (JsVal.record i b).truthy = true := rfl

/-- `blob` property evaluation lemmas. -/
@[simp] theorem JsVal.blobProp_undef : JsVal.undefined.blobProp = .undefined := rfl

/-- See `JsVal.blobProp_undef`. -/
@[simp] theorem JsVal.blobProp_blob (c : String) : (JsVal.blob c).blobProp = .undefined := rfl

/-- See `JsVal.blobProp_undef`. -/
@[simp] theorem JsVal.blobProp_record (i : String) (b : JsVal) :
    (JsVal.record i b).blobProp = b := rfl


/-- Folding `mapSet` over records whose ids are fresh for the
accumulator and mutually distinct just appends them. -/
theorem foldl_mapSet_append (l : List Idea) (acc : List Idea)
    (hdisj : ∀ i ∈ l, ∀ j ∈ acc, j.id ≠ i.id)
    (hnodup : (l.map Idea.id).Nodup) :
    l.foldl mapSet acc = acc ++ l := by
  induction l generalizing acc with
  | nil => simp
  | cons x xs ih =>
    have hx : acc.any (fun y => y.id == x.id) = false := by
      simp only [List.any_eq_false, beq_iff_eq]
      intro j hj
      exact hdisj x (by simp) j hj
    have hset : mapSet acc x = acc ++ [x] := by
      simp [mapSet, hx]
    simp only [List.foldl_cons, hset]
    rw [ih (acc ++ [x])]
    · simp
    · intro i hi j hj
      rcases List.mem_append.mp hj with hja | hjx
      · exact hdisj i (by simp [hi]) j hja
      · have hj' : j = x := by simpa using hjx
        subst hj'
        simp only [List.map_cons, List.nodup_cons] at hnodup
        intro hcontra
        exact hnodup.1 (hcontra ▸ List.mem_map_of_mem Idea.id hi)
    · simp only [List.map_cons, List.nodup_cons] at hnodup
      exact hnodup.2

/-- In a list with pairwise-distinct ids, looking a member up by its id
finds exactly it. -/
theorem find?_by_id_eq_self {l : List Idea} {r : Idea}
    (hnodup : (l.map Idea.id).Nodup) (hr : r ∈ l) :
    l.find? (fun y => y.id == r.id) = some r := by
  induction l with
  | nil => cases hr
  | cons x xs ih =>
    simp only [List.map_cons, List.nodup_cons] at hnodup
    rcases List.mem_cons.mp hr with rfl | hr'
    · simp [List.find?_cons]
    · have hx : (x.id == r.id) = false := by
        simp only [beq_eq_false_iff_ne, ne_eq]
        intro hcontra
        exact hnodup.1 (hcontra ▸ List.mem_map_of_mem Idea.id hr')
      simp only [List.find?_cons, hx]
      exact ih hnodup.2 hr'

/-- The remote loop of `mergeIdeas` is a no-op on a state in which every
remote record is already present verbatim. -/
theorem foldl_mergeStep_self (rs : List Idea) (m : List Idea) (up : List Idea)
    (h : ∀ r ∈ rs, mapGet m r.id = some r) :
    rs.foldl mergeStep (m, up) = (m, up) := by
  induction rs with
  | nil => rfl
  | cons x xs ih =>
    have hstep : mergeStep (m, up) x = (m, up) := by
      simp [mergeStep, h x (by simp)]
    simp only [List.foldl_cons, hstep]
    exact ih (fun r hr => h r (by simp [hr]))

/-- C1: for a pair of records sharing an id, the merge keeps the remote
copy with `pendingSync` forced false when the remote timestamp is
strictly greater, keeps the local copy and queues it for upload when the
local timestamp is strictly greater, and keeps the local copy with no
upload queued when the timestamps are equal. -/
theorem merge_pair_lww (l r : Idea) (hid : l.id = r.id) :
    (r.updatedAt > l.updatedAt →
      mergeIdeas [l] [r] = ⟨[{ r with pendingSync := false }], []⟩)
    ∧ (l.updatedAt > r.updatedAt → mergeIdeas [l] [r] = ⟨[l], [l]⟩)
    ∧ (l.updatedAt = r.updatedAt → mergeIdeas [l] [r] = ⟨[l], []⟩) := by
  refine ⟨?_, ?_, ?_⟩
  · intro hgt
    simp [mergeIdeas, mergeStep, mapGet, mapSet, hid, hgt]
  · intro hgt
    simp [mergeIdeas, mergeStep, mapGet, mapSet, hid, hgt, not_lt_of_gt hgt]
  · intro heq
    simp [mergeIdeas, mergeStep, mapGet, mapSet, hid, heq]

/-- Witness for `merge_pair_lww` at a concrete pair. -/
theorem merge_pair_lww_witness :
    mergeIdeas [⟨"a", 1, true, [], "L"⟩] [⟨"a", 2, true, [], "R"⟩]
      = ⟨[⟨"a", 2, false, [], "R"⟩], []⟩ :=
  (merge_pair_lww ⟨"a", 1, true, [], "L"⟩ ⟨"a", 2, true, [], "R"⟩ rfl).1 (by decide)

/-- C8: merging a record set (distinct ids) with itself yields the same
set and queues no upload. -/
theorem merge_idempotent (ideas : List Idea)
    (hnodup : (ideas.map Idea.id).Nodup) :
    mergeIdeas ideas ideas = ⟨ideas, []⟩ := by
  have hfold : ideas.foldl mapSet [] = ideas := by
    simpa using foldl_mapSet_append ideas [] (by simp) hnodup
  have hfix : ideas.foldl mergeStep (ideas, []) = (ideas, []) :=
    foldl_mergeStep_self ideas ideas []
      (fun r hr => find?_by_id_eq_self hnodup hr)
  simp [mergeIdeas, hfold, hfix]

/-- Witness for `merge_idempotent` at a concrete two-record set. -/
theorem merge_idempotent_witness :
    mergeIdeas [⟨"a", 5, true, [], "x"⟩, ⟨"b", 7, false, [], "y"⟩]
        [⟨"a", 5, true, [], "x"⟩, ⟨"b", 7, false, [], "y"⟩]
      = ⟨[⟨"a", 5, true, [], "x"⟩, ⟨"b", 7, false, [], "y"⟩], []⟩ :=
  merge_idempotent _ (by decide)

/-- `mapSet` with a different id preserves membership. -/
theorem mem_mapSet_of_ne (m : List Idea) (v r : Idea)
    (hr : r ∈ m) (hne : r.id ≠ v.id) : r ∈ mapSet m v := by
  unfold mapSet
  split
  · refine List.mem_map.mpr ⟨r, hr, ?_⟩
    simp [hne]
  · exact List.mem_append_left _ hr

/-- A record whose id a remote record does not share survives one merge
step in the map. -/
theorem mem_mergeStep (acc : List Idea × List Idea) (x r : Idea)
    (hr : r ∈ acc.1) (hne : r.id ≠ x.id) : r ∈ (mergeStep acc x).1 := by
  unfold mergeStep
  split
  · exact mem_mapSet_of_ne _ _ _ hr hne
  · split
    · exact mem_mapSet_of_ne _ _ _ hr hne
    · split
      · exact hr
      · exact hr

/-- A record whose id occurs in none of the remote records survives the
whole remote loop in the map. -/
theorem mem_foldl_mergeStep (rs : List Idea) (m up : List Idea) (r : Idea)
    (hr : r ∈ m) (hid : r.id ∉ rs.map Idea.id) :
    r ∈ (rs.foldl mergeStep (m, up)).1 := by
  induction rs generalizing m up with
  | nil => exact hr
  | cons x xs ih =>
    simp only [List.map_cons, List.mem_cons, not_or] at hid
    simp only [List.foldl_cons]
    have h1 : r ∈ (mergeStep (m, up) x).1 := mem_mergeStep _ x r hr hid.1
    have h2 := ih (mergeStep (m, up) x).1 (mergeStep (m, up) x).2 h1 hid.2
    simpa using h2

/-- A local record not present remotely is in the merged local set. -/
theorem mem_mergeIdeas_local (L rs : List Idea) (r : Idea)
    (hr : r ∈ L) (hnodup : (L.map Idea.id).Nodup)
    (hid : r.id ∉ rs.map Idea.id) :
    r ∈ (mergeIdeas L rs).localMerged := by
  have hfold : L.foldl mapSet [] = L := by
    simpa using foldl_mapSet_append L [] (by simp) hnodup
  unfold mergeIdeas
  simp only [hfold]
  exact mem_foldl_mergeStep rs L [] r hr hid

/-! ## Record sync engine theorems -/

/-- Evaluation of `syncToProviderBody` past the guard on a successful
cycle. -/
theorem syncToProviderBody_ok_eq (p : ProviderObj) (st : SyncState) (env : SyncEnv)
    (hst : st.status ≠ SStatus.syncing) (n : Nat) (tr : List SEffect)
    (hc : runCycle p.name env = (.ok n, tr)) :
    syncToProviderBody (some p) st env
      = (.ok ⟨true, none, some n⟩, ⟨SStatus.idle, st.providers⟩,
         .notify SStatus.syncing :: (tr ++ [.notify SStatus.idle])) := by
  simp [syncToProviderBody, hst, hc]

/-- Evaluation of `syncToProviderBody` past the guard on a failing
cycle. -/
theorem syncToProviderBody_error_eq (p : ProviderObj) (st : SyncState) (env : SyncEnv)
    (hst : st.status ≠ SStatus.syncing) (e : String) (tr : List SEffect)
    (hc : runCycle p.name env = (.error e, tr)) :
    syncToProviderBody (some p) st env
      = (.ok ⟨false, some e, none⟩, ⟨SStatus.error, st.providers⟩,
         .notify SStatus.syncing :: (tr ++ [.notify SStatus.error])) := by
  simp [syncToProviderBody, hst, hc]

/-- `syncToProviderBody` with an actual provider object always returns a
structured result: the only `throw` of the body is the nullish `name`
read. -/
theorem syncToProviderBody_ok (p : ProviderObj) (st : SyncState) (env : SyncEnv) :
    ∃ res st' tr, syncToProviderBody (some p) st env = (.ok res, st', tr) := by
  by_cases hst : st.status = SStatus.syncing
  · exact ⟨⟨false, some "Sync already in progress", none⟩, st, [],
      by simp [syncToProviderBody, hst]⟩
  · rcases hc : runCycle p.name env with ⟨cres, ctr⟩
    cases cres with
    | ok n =>
      exact ⟨⟨true, none, some n⟩, ⟨SStatus.idle, st.providers⟩,
        .notify SStatus.syncing :: (ctr ++ [.notify SStatus.idle]),
        syncToProviderBody_ok_eq p st env hst n ctr hc⟩
    | error e =>
      exact ⟨⟨false, some e, none⟩, ⟨SStatus.error, st.providers⟩,
        .notify SStatus.syncing :: (ctr ++ [.notify SStatus.error]),
        syncToProviderBody_error_eq p st env hst e ctr hc⟩

/-- When the guard is passed, the cycle runs and the final status is
`idle` exactly on success and `error` exactly on failure. -/
theorem syncToProviderBody_status (p : ProviderObj) (st : SyncState) (env : SyncEnv)
    (hst : st.status ≠ SStatus.syncing) :
    ∀ res st' tr, syncToProviderBody (some p) st env = (.ok res, st', tr) →
      (res.success = true ∧ st'.status = SStatus.idle)
      ∨ (res.success = false ∧ st'.status = SStatus.error) := by
  intro res st' tr h
  rcases hc : runCycle p.name env with ⟨cres, ctr⟩
  cases cres with
  | ok n =>
    rw [syncToProviderBody_ok_eq p st env hst n ctr hc] at h
    simp only [Prod.mk.injEq, Except.ok.injEq] at h
    obtain ⟨h1, h2, -⟩ := h
    exact Or.inl ⟨by rw [← h1], by rw [← h2]⟩
  | error e =>
    rw [syncToProviderBody_error_eq p st env hst e ctr hc] at h
    simp only [Prod.mk.injEq, Except.ok.injEq] at h
    obtain ⟨h1, h2, -⟩ := h
    exact Or.inr ⟨by rw [← h1], by rw [← h2]⟩

/-- `syncAll` never produces an escaping exception. -/
theorem syncAll_ok (ps : List ProviderObj) (st : SyncState) (env : SyncEnv) :
    ∃ res st' tr, syncAll ps st env = (.ok res, st', tr) := by
  induction ps generalizing st with
  | nil => exact ⟨[], st, [], rfl⟩
  | cons p rest ih =>
    obtain ⟨r1, st1, tr1, h1⟩ := syncToProviderBody_ok p st env
    obtain ⟨rs, st2, tr2, h2⟩ := ih st1
    refine ⟨⟨p.name, r1.success, r1.error, r1.merged⟩ :: rs, st2, tr1 ++ tr2, ?_⟩
    have h1' : syncToProvider (.obj p) st env = (.ok r1, st1, tr1) := h1
    simp [syncAll, h1', h2]

/-- C2 (amended): for every provider-object argument, every name-string
argument and every collaborator behaviour, `syncToProvider` and `sync`
return a structured result (`.ok`) rather than letting an exception
escape, and a cycle that was entered and failed leaves the global
status at `error` (success leaves it `idle`). -/
theorem sync_never_escapes (p : ProviderObj) (s : String) (st : SyncState)
    (env : SyncEnv) (hst : st.status ≠ SStatus.syncing) :
    (∃ res st' tr, syncToProvider (.obj p) st env = (.ok res, st', tr))
    ∧ (∃ res st' tr, syncToProvider (.str s) st env = (.ok res, st', tr))
    ∧ (∃ res st' tr, sync st env = (.ok res, st', tr))
    ∧ (∀ res st' tr, syncToProvider (.obj p) st env = (.ok res, st', tr) →
        (res.success = true ∧ st'.status = SStatus.idle)
        ∨ (res.success = false ∧ st'.status = SStatus.error)) := by
  refine ⟨syncToProviderBody_ok p st env, ?_, ?_, ?_⟩
  · rcases hl : lookupProvider st.providers s with _ | q
    · refine ⟨⟨false, some "Provider 'undefined' not found", none⟩, st, [], ?_⟩
      simp [syncToProvider, hl]
    · obtain ⟨res, st', tr, h⟩ := syncToProviderBody_ok q st env
      refine ⟨res, st', tr, ?_⟩
      simpa [syncToProvider, hl] using h
  · by_cases hemp : st.providers.isEmpty
    · exact ⟨⟨true, []⟩, st, [], by simp [sync, hemp]⟩
    · obtain ⟨rs, st1, tr1, h1⟩ := syncAll_ok st.providers st env
      exact ⟨⟨rs.all (fun r => r.success), rs⟩, st1, tr1, by simp [sync, hemp, h1]⟩
  · exact syncToProviderBody_status p st env hst

/-- Witness for `sync_never_escapes` at a concrete provider and state. -/
theorem sync_never_escapes_witness :
    (∃ res st' tr,
      syncToProvider (.obj ⟨"drive"⟩) ⟨SStatus.idle, [⟨"drive"⟩]⟩ envW = (.ok res, st', tr))
    ∧ (∃ res st' tr,
      syncToProvider (.str "nope") ⟨SStatus.idle, [⟨"drive"⟩]⟩ envW = (.ok res, st', tr))
    ∧ (∃ res st' tr, sync ⟨SStatus.idle, [⟨"drive"⟩]⟩ envW = (.ok res, st', tr))
    ∧ (∀ res st' tr,
        syncToProvider (.obj ⟨"drive"⟩) ⟨SStatus.idle, [⟨"drive"⟩]⟩ envW = (.ok res, st', tr) →
          (res.success = true ∧ st'.status = SStatus.idle)
          ∨ (res.success = false ∧ st'.status = SStatus.error)) :=
  sync_never_escapes ⟨"drive"⟩ "nope" ⟨SStatus.idle, [⟨"drive"⟩]⟩ envW (by decide)

/-- C2 counterexample to the claim as stated: called with a nullish
argument (JS `null`/`undefined`), `syncToProvider` lets the `TypeError`
from the `provider.name` read (sync.js line 125, outside the `try`)
escape, and leaves the global status stuck at `syncing`, not `error`. -/
theorem syncToProvider_nullish_escapes :
    syncToProvider .nullish ⟨SStatus.idle, []⟩ envW
      = (.error "TypeError: Cannot read properties of null (reading 'name')",
         ⟨SStatus.syncing, []⟩, [.notify SStatus.syncing]) := rfl

/-- C6 (amended): while the status is `syncing`, every invocation whose
argument is not an unregistered name string returns
`{success: false, error: "Sync already in progress"}` with an empty
effect trace (no Local Store access, no provider call) and an unchanged
state; an unregistered name string returns the provider-not-found
failure, equally without any effect. -/
theorem syncing_guard (p : ProviderObj) (s : String) (st : SyncState)
    (env : SyncEnv) (hst : st.status = SStatus.syncing) :
    syncToProvider (.obj p) st env
      = (.ok ⟨false, some "Sync already in progress", none⟩, st, [])
    ∧ syncToProvider .nullish st env
      = (.ok ⟨false, some "Sync already in progress", none⟩, st, [])
    ∧ (∀ q, lookupProvider st.providers s = some q →
        syncToProvider (.str s) st env
          = (.ok ⟨false, some "Sync already in progress", none⟩, st, []))
    ∧ (lookupProvider st.providers s = none →
        syncToProvider (.str s) st env
          = (.ok ⟨false, some "Provider 'undefined' not found", none⟩, st, [])) := by
  have hbody : ∀ q, syncToProviderBody q st env
      = (.ok ⟨false, some "Sync already in progress", none⟩, st, []) := by
    intro q
    unfold syncToProviderBody
    rw [if_pos hst]
  refine ⟨hbody (some p), hbody none, ?_, ?_⟩
  · intro q hq
    have : syncToProvider (.str s) st env = syncToProviderBody (some q) st env := by
      simp [syncToProvider, hq]
    rw [this]
    exact hbody (some q)
  · intro hq
    simp [syncToProvider, hq]

/-- Witness for `syncing_guard` at a concrete syncing state. -/
theorem syncing_guard_witness :
    syncToProvider (.obj ⟨"drive"⟩) ⟨SStatus.syncing, [⟨"drive"⟩]⟩ envW
      = (.ok ⟨false, some "Sync already in progress", none⟩,
         ⟨SStatus.syncing, [⟨"drive"⟩]⟩, [])
    ∧ syncToProvider .nullish ⟨SStatus.syncing, [⟨"drive"⟩]⟩ envW
      = (.ok ⟨false, some "Sync already in progress", none⟩,
         ⟨SStatus.syncing, [⟨"drive"⟩]⟩, [])
    ∧ (∀ q, lookupProvider [⟨"drive"⟩] "drive" = some q →
        syncToProvider (.str "drive") ⟨SStatus.syncing, [⟨"drive"⟩]⟩ envW
          = (.ok ⟨false, some "Sync already in progress", none⟩,
             ⟨SStatus.syncing, [⟨"drive"⟩]⟩, []))
    ∧ (lookupProvider [⟨"drive"⟩] "drive" = none →
        syncToProvider (.str "drive") ⟨SStatus.syncing, [⟨"drive"⟩]⟩ envW
          = (.ok ⟨false, some "Provider 'undefined' not found", none⟩,
             ⟨SStatus.syncing, [⟨"drive"⟩]⟩, [])) :=
  syncing_guard ⟨"drive"⟩ "drive" ⟨SStatus.syncing, [⟨"drive"⟩]⟩ envW rfl

/-- When the Local Store reads and the fetch succeed and some record is
flagged pending, the cycle reaches the push and its payload is the full
merged set. -/
theorem runCycle_push (pname : String) (env : SyncEnv) (L : List Idea)
    (ls : Option String) (rd : RemoteData) (r : Idea)
    (hA : env.getAllIdeas = .ok L)
    (hP : env.getPendingSyncIdeas = .ok (L.filter (fun i => i.pendingSync)))
    (hM : env.getSyncMeta ("lastSync-" ++ pname) = .ok ls)
    (hF : env.fetch pname = .ok rd)
    (hB : ∀ x, env.bulkSaveIdeas x = .ok ())
    (hr : r ∈ L) (hpend : r.pendingSync = true) :
    SEffect.providerPush pname ⟨(mergeIdeas L (rd.ideas.getD [])).localMerged, env.now⟩
      ∈ (runCycle pname env).2 := by
  have hfil : r ∈ L.filter (fun i => i.pendingSync) :=
    List.mem_filter.mpr ⟨hr, hpend⟩
  have hcond : (mergeIdeas L (rd.ideas.getD [])).toUpload.length > 0
      ∨ (L.filter (fun i => i.pendingSync)).length > 0 :=
    Or.inr (List.length_pos.mpr (List.ne_nil_of_mem hfil))
  unfold runCycle
  simp only [hA, hP, hM, hF, hB]
  rw [if_pos hcond]
  rcases hpush : env.push pname ⟨(mergeIdeas L (rd.ideas.getD [])).localMerged, env.now⟩
    with e | u
  · simp [hpush]
  · rcases hm : markAll env (L.filter (fun i => i.pendingSync)) with ⟨mres, mtr⟩
    cases mres with
    | error e => simp [hpush, hm]
    | ok u2 =>
      rcases hsm : env.setSyncMeta ("lastSync-" ++ pname) env.now with e | u3
      · simp [hpush, hm, hsm]
      · simp [hpush, hm, hsm]

/-- C7: in any sync cycle whose Local Store reads and remote fetch
succeed, a record that exists only locally (its id absent from the
remote dataset) and is flagged `pendingSync` forces the push step, and
the pushed payload — the full merged set — contains that record. -/
theorem push_contains_pending_local_only (p : ProviderObj) (st : SyncState)
    (env : SyncEnv) (L : List Idea) (ls : Option String) (rd : RemoteData) (r : Idea)
    (hst : st.status ≠ SStatus.syncing)
    (hA : env.getAllIdeas = .ok L)
    (hP : env.getPendingSyncIdeas = .ok (L.filter (fun i => i.pendingSync)))
    (hM : env.getSyncMeta ("lastSync-" ++ p.name) = .ok ls)
    (hF : env.fetch p.name = .ok rd)
    (hB : ∀ x, env.bulkSaveIdeas x = .ok ())
    (hr : r ∈ L) (hpend : r.pendingSync = true)
    (hnodup : (L.map Idea.id).Nodup)
    (hremote : r.id ∉ (rd.ideas.getD []).map Idea.id) :
    ∃ payload : PushPayload,
      SEffect.providerPush p.name payload ∈ (syncToProvider (.obj p) st env).2.2
      ∧ r ∈ payload.ideas := by
  refine ⟨⟨(mergeIdeas L (rd.ideas.getD [])).localMerged, env.now⟩, ?_, ?_⟩
  · have hmem := runCycle_push p.name env L ls rd r hA hP hM hF hB hr hpend
    rcases hc : runCycle p.name env with ⟨cres, ctr⟩
    rw [hc] at hmem
    have hbody : (syncToProvider (.obj p) st env).2.2 = (syncToProviderBody (some p) st env).2.2 := rfl
    rw [hbody]
    cases cres with
    | ok n =>
      rw [syncToProviderBody_ok_eq p st env hst n ctr hc]
      simp only [List.mem_cons, List.mem_append]
      exact Or.inr (Or.inl hmem)
    | error e =>
      rw [syncToProviderBody_error_eq p st env hst e ctr hc]
      simp only [List.mem_cons, List.mem_append]
      exact Or.inr (Or.inl hmem)
  · exact mem_mergeIdeas_local L (rd.ideas.getD []) r hr hnodup hremote

/-- Witness for `push_contains_pending_local_only` at a concrete state. -/
theorem push_contains_pending_local_only_witness :
    ∃ payload : PushPayload,
      SEffect.providerPush "drive" payload
        ∈ (syncToProvider (.obj ⟨"drive"⟩) ⟨SStatus.idle, [⟨"drive"⟩]⟩ envW7).2.2
      ∧ (⟨"w", 3, true, [], "pending note"⟩ : Idea) ∈ payload.ideas :=
  push_contains_pending_local_only ⟨"drive"⟩ ⟨SStatus.idle, [⟨"drive"⟩]⟩ envW7
    [⟨"w", 3, true, [], "pending note"⟩] none ⟨some []⟩ ⟨"w", 3, true, [], "pending note"⟩
    (by decide) rfl rfl rfl rfl (fun _ => rfl) (by simp) rfl (by decide) (by decide)

/-- C6 counterexample to the claim as stated: while the status is
`syncing`, invoking `syncToProvider` with an unregistered provider name
returns the provider-not-found failure (with the reassigned-variable
message of the source), not "Sync already in progress". -/
theorem syncing_guard_unregistered_cex :
    syncToProvider (.str "dropbox") ⟨SStatus.syncing, []⟩ envW
      = (.ok ⟨false, some "Provider 'undefined' not found", none⟩,
         ⟨SStatus.syncing, []⟩, [])
    ∧ "Provider 'undefined' not found" ≠ "Sync already in progress" :=
  ⟨rfl, by decide⟩

/-! ## Local Store: deleteIdea cascade (C9) -/

/-- After deleting rows with id `k`, a lookup of `k` finds nothing. -/
theorem find?_filter_id_ne_self (l : List Idea) (k : String) :
    (l.filter (fun y => y.id != k)).find? (fun y => y.id == k) = none := by
  rw [List.find?_eq_none]
  intro x hx
  have h2 := (List.mem_filter.mp hx).2
  simp only [bne_iff_ne, ne_eq, decide_eq_true_eq] at h2
  simpa using h2

/-- Deleting rows with id `k` leaves lookups of any other id unchanged. -/
theorem find?_filter_id_ne (l : List Idea) (k j : String) (hjk : j ≠ k) :
    (l.filter (fun y => y.id != k)).find? (fun y => y.id == j)
      = l.find? (fun y => y.id == j) := by
  induction l with
  | nil => rfl
  | cons x xs ih =>
    rw [List.filter_cons]
    cases hk2 : x.id != k
    · have hxk : x.id = k := by simpa using hk2
      have hpred : (x.id == j) = false := by
        rw [beq_eq_false_iff_ne, hxk]
        exact fun h => hjk h.symm
      rw [if_neg (by simp), ih, List.find?_cons, hpred]
    · rw [if_pos rfl, List.find?_cons, List.find?_cons]
      cases hj2 : x.id == j
      · simp only [hj2]
        exact ih
      · simp only [hj2]

/-- `objectStore.delete(k)` on the blob store makes lookups of `k` fail. -/
theorem find?_idbDeleteRow_self (rows : List (String × JsVal)) (k : String) :
    (idbDeleteRow rows k).find? (fun kv => kv.1 == k) = none := by
  rw [List.find?_eq_none]
  intro x hx
  have h2 := (List.mem_filter.mp hx).2
  simp only [bne_iff_ne, ne_eq, decide_eq_true_eq] at h2
  simpa using h2

/-- `objectStore.delete(k)` on the blob store leaves other keys alone. -/
theorem find?_idbDeleteRow_other (rows : List (String × JsVal)) (k j : String)
    (hjk : j ≠ k) :
    (idbDeleteRow rows k).find? (fun kv => kv.1 == j)
      = rows.find? (fun kv => kv.1 == j) := by
  induction rows with
  | nil => rfl
  | cons x xs ih =>
    show ((x :: xs).filter (fun kv => kv.1 != k)).find? (fun kv => kv.1 == j) = _
    rw [List.filter_cons]
    cases hk2 : x.1 != k
    · have hxk : x.1 = k := by simpa using hk2
      have hpred : (x.1 == j) = false := by
        rw [beq_eq_false_iff_ne, hxk]
        exact fun h => hjk h.symm
      rw [if_neg (by simp),
          show (xs.filter (fun kv => kv.1 != k)) = idbDeleteRow xs k from rfl, ih,
          List.find?_cons, hpred]
    · rw [if_pos rfl, List.find?_cons, List.find?_cons]
      cases hj2 : x.1 == j
      · simp only [hj2]
        rw [show (xs.filter (fun kv => kv.1 != k)) = idbDeleteRow xs k from rfl]
        exact ih
      · simp only [hj2]

/-- Absence of a key survives further deletions. -/
theorem foldl_delete_preserves_none (atts : List AttachMeta)
    (rows : List (String × JsVal)) (k : String)
    (h : rows.find? (fun kv => kv.1 == k) = none) :
    (atts.foldl (fun r x => idbDeleteRow r x.id) rows).find? (fun kv => kv.1 == k)
      = none := by
  induction atts generalizing rows with
  | nil => exact h
  | cons x xs ih =>
    simp only [List.foldl_cons]
    apply ih
    rw [List.find?_eq_none] at h ⊢
    intro y hy
    exact h y (List.mem_of_mem_filter hy)

/-- After the deletion loop of `deleteIdea`, the blob of every listed
attachment is gone. -/
theorem foldl_delete_mem (atts : List AttachMeta) (rows : List (String × JsVal))
    (a : AttachMeta) (ha : a ∈ atts) :
    (atts.foldl (fun r x => idbDeleteRow r x.id) rows).find? (fun kv => kv.1 == a.id)
      = none := by
  induction atts generalizing rows with
  | nil => cases ha
  | cons x xs ih =>
    rcases List.mem_cons.mp ha with rfl | ha'
    · simp only [List.foldl_cons]
      exact foldl_delete_preserves_none xs _ a.id (find?_idbDeleteRow_self rows a.id)
    · simp only [List.foldl_cons]
      exact ih _ ha'

/-- The deletion loop leaves every key not listed on the idea unchanged. -/
theorem foldl_delete_other (atts : List AttachMeta) (rows : List (String × JsVal))
    (k : String) (h : ∀ a ∈ atts, a.id ≠ k) :
    (atts.foldl (fun r x => idbDeleteRow r x.id) rows).find? (fun kv => kv.1 == k)
      = rows.find? (fun kv => kv.1 == k) := by
  induction atts generalizing rows with
  | nil => rfl
  | cons x xs ih =>
    simp only [List.foldl_cons]
    rw [ih _ (fun a ha => h a (by simp [ha]))]
    exact find?_idbDeleteRow_other rows x.id k (fun hc => h x (by simp) hc.symm)

/-- C9: `deleteIdea(id)` removes the idea record and the blob stored
under each attachment id listed on it, and leaves every other idea
record and every blob under a key not listed on the idea unchanged. -/
theorem deleteIdea_cascades (db : Database) (i : Idea)
    (hfound : idbGetIdea db.ideas i.id = some i) :
    idbGetIdea (deleteIdea db i.id).ideas i.id = none
    ∧ (∀ a ∈ i.attachments,
        (deleteIdea db i.id).attachments.find? (fun kv => kv.1 == a.id) = none)
    ∧ (∀ j, j ≠ i.id →
        idbGetIdea (deleteIdea db i.id).ideas j = idbGetIdea db.ideas j)
    ∧ (∀ k, (∀ a ∈ i.attachments, a.id ≠ k) →
        (deleteIdea db i.id).attachments.find? (fun kv => kv.1 == k)
          = db.attachments.find? (fun kv => kv.1 == k)) := by
  have hdel : deleteIdea db i.id =
      ⟨db.ideas.filter (fun y => y.id != i.id),
       i.attachments.foldl (fun rows a => idbDeleteRow rows a.id) db.attachments⟩ := by
    unfold deleteIdea
    rw [hfound]
  refine ⟨?_, ?_, ?_, ?_⟩
  · rw [hdel]
    exact find?_filter_id_ne_self db.ideas i.id
  · intro a ha
    rw [hdel]
    exact foldl_delete_mem i.attachments db.attachments a ha
  · intro j hj
    rw [hdel]
    exact find?_filter_id_ne db.ideas i.id j hj
  · intro k hk
    rw [hdel]
    exact foldl_delete_other i.attachments db.attachments k hk

/-- Witness for `deleteIdea_cascades` at a concrete two-idea store. -/
theorem deleteIdea_cascades_witness :
    idbGetIdea (deleteIdea
        ⟨[⟨"i1", 1, false, [⟨"a1", "f.png", "image/png", none, "local", none⟩], "one"⟩,
          ⟨"i2", 2, false, [⟨"a2", "g.png", "image/png", none, "local", none⟩], "two"⟩],
         [("a1", .record "a1" (.blob "B1")), ("a2", .record "a2" (.blob "B2"))]⟩
        "i1").ideas "i1" = none
    ∧ (∀ a ∈ [(⟨"a1", "f.png", "image/png", none, "local", none⟩ : AttachMeta)],
        (deleteIdea
          ⟨[⟨"i1", 1, false, [⟨"a1", "f.png", "image/png", none, "local", none⟩], "one"⟩,
            ⟨"i2", 2, false, [⟨"a2", "g.png", "image/png", none, "local", none⟩], "two"⟩],
           [("a1", .record "a1" (.blob "B1")), ("a2", .record "a2" (.blob "B2"))]⟩
          "i1").attachments.find? (fun kv => kv.1 == a.id) = none)
    ∧ (∀ j, j ≠ "i1" →
        idbGetIdea (deleteIdea
          ⟨[⟨"i1", 1, false, [⟨"a1", "f.png", "image/png", none, "local", none⟩], "one"⟩,
            ⟨"i2", 2, false, [⟨"a2", "g.png", "image/png", none, "local", none⟩], "two"⟩],
           [("a1", .record "a1" (.blob "B1")), ("a2", .record "a2" (.blob "B2"))]⟩
          "i1").ideas j
          = idbGetIdea
            [⟨"i1", 1, false, [⟨"a1", "f.png", "image/png", none, "local", none⟩], "one"⟩,
             ⟨"i2", 2, false, [⟨"a2", "g.png", "image/png", none, "local", none⟩], "two"⟩] j)
    ∧ (∀ k, (∀ a ∈ [(⟨"a1", "f.png", "image/png", none, "local", none⟩ : AttachMeta)], a.id ≠ k) →
        (deleteIdea
          ⟨[⟨"i1", 1, false, [⟨"a1", "f.png", "image/png", none, "local", none⟩], "one"⟩,
            ⟨"i2", 2, false, [⟨"a2", "g.png", "image/png", none, "local", none⟩], "two"⟩],
           [("a1", .record "a1" (.blob "B1")), ("a2", .record "a2" (.blob "B2"))]⟩
          "i1").attachments.find? (fun kv => kv.1 == k)
          = [("a1", JsVal.record "a1" (.blob "B1")),
             ("a2", JsVal.record "a2" (.blob "B2"))].find? (fun kv => kv.1 == k)) :=
  deleteIdea_cascades
    ⟨[⟨"i1", 1, false, [⟨"a1", "f.png", "image/png", none, "local", none⟩], "one"⟩,
      ⟨"i2", 2, false, [⟨"a2", "g.png", "image/png", none, "local", none⟩], "two"⟩],
     [("a1", .record "a1" (.blob "B1")), ("a2", .record "a2" (.blob "B2"))]⟩
    ⟨"i1", 1, false, [⟨"a1", "f.png", "image/png", none, "local", none⟩], "one"⟩
    rfl

/-! ## Attachment sync engine theorems -/

/-- C4: with a provider supporting upload, `uploadAttachment` persists
the metadata with status `syncing` strictly before the provider call;
on provider success it persists and returns the metadata with status
`synced` and the provider-returned remote id; on provider failure it
persists the metadata with status `error` and the failure message and
re-raises the failure. -/
theorem uploadAttachment_persist_order (p : AttachProvider) (env : AttachEnv)
    (metas : List AttachMeta) (att : AttachMeta) (blob : JsVal)
    (hup : p.hasUploadAttachment = true) :
    (∀ rid, env.uploadResult att.id = .ok rid →
      uploadAttachment (some p) env metas att blob
        = (.ok { att with remoteId := some rid, syncStatus := "synced" },
           updateAttachment (updateAttachment metas { att with syncStatus := "syncing" })
             { att with remoteId := some rid, syncStatus := "synced" },
           [.updateAttachment { att with syncStatus := "syncing" },
            .providerUpload att.id att.filename blob att.mimeType,
            .updateAttachment { att with remoteId := some rid, syncStatus := "synced" }]))
    ∧ (∀ e, env.uploadResult att.id = .error e →
      uploadAttachment (some p) env metas att blob
        = (.error e,
           updateAttachment (updateAttachment metas { att with syncStatus := "syncing" })
             { att with syncStatus := "error", syncError := some e },
           [.updateAttachment { att with syncStatus := "syncing" },
            .providerUpload att.id att.filename blob att.mimeType,
            .updateAttachment { att with syncStatus := "error", syncError := some e }])) := by
  constructor
  · intro rid h
    simp [uploadAttachment, hup, h]
  · intro e h
    simp [uploadAttachment, hup, h]

/-- Witness for `uploadAttachment_persist_order` at concrete inputs. -/
theorem uploadAttachment_persist_order_witness :
    uploadAttachment (some ⟨"p", true, true, true, true⟩)
        ⟨fun _ => .undefined, fun _ => .ok "remote-123", fun _ => .error "unused"⟩
        [] ⟨"a1", "f.png", "image/png", none, "local", none⟩ (.blob "B")
      = (.ok ⟨"a1", "f.png", "image/png", some "remote-123", "synced", none⟩,
         updateAttachment (updateAttachment []
             ⟨"a1", "f.png", "image/png", none, "syncing", none⟩)
           ⟨"a1", "f.png", "image/png", some "remote-123", "synced", none⟩,
         [.updateAttachment ⟨"a1", "f.png", "image/png", none, "syncing", none⟩,
          .providerUpload "a1" "f.png" (.blob "B") "image/png",
          .updateAttachment ⟨"a1", "f.png", "image/png", some "remote-123", "synced", none⟩]) :=
  (uploadAttachment_persist_order ⟨"p", true, true, true, true⟩
    ⟨fun _ => .undefined, fun _ => .ok "remote-123", fun _ => .error "unused"⟩
    [] ⟨"a1", "f.png", "image/png", none, "local", none⟩ (.blob "B") rfl).1
    "remote-123" rfl

/-- C3 (evaluation at the failing input): composing `downloadAttachment`
with the real db.js `getAttachment` — which returns the bare blob, not
the `{id, blob}` record the engine tests for — the cached blob under the
attachment's id does not stop the provider call: the provider download
happens and its result, not the cached blob, is returned. -/
theorem downloadAttachment_cache_bypassed_bug :
    downloadAttachment (some ⟨"p", true, true, true, true⟩)
        ⟨dbGetAttachment (dbSaveAttachment [] "a1" (.blob "CACHED")),
         fun _ => .error "unused", fun _ => .ok "REMOTE"⟩
        ⟨"a1", "f.png", "image/png", some "r1", "synced", none⟩
      = (.ok (.blob "REMOTE"),
         [.getAttachment "a1", .providerDownload "r1", .saveAttachment "a1" "REMOTE"])
    ∧ AEffect.providerDownload "r1"
        ∈ (downloadAttachment (some ⟨"p", true, true, true, true⟩)
            ⟨dbGetAttachment (dbSaveAttachment [] "a1" (.blob "CACHED")),
             fun _ => .error "unused", fun _ => .ok "REMOTE"⟩
            ⟨"a1", "f.png", "image/png", some "r1", "synced", none⟩).2
    ∧ dbGetAttachment (dbSaveAttachment [] "a1" (.blob "CACHED")) "a1"
        = JsVal.blob "CACHED" :=
  ⟨rfl, by decide, rfl⟩

/-- The cache-first behaviour `downloadAttachment` itself implements
against the store lookup contract its own unit tests use (`getAttachment`
yielding the `{id, blob}` record): the cached blob is returned and the
provider is never called. -/
theorem downloadAttachment_cache_first (p : AttachProvider) (env : AttachEnv)
    (att : AttachMeta) (rid : String) (b : JsVal)
    (hdl : p.hasDownloadAttachment = true)
    (hrid : att.remoteId = some rid)
    (hloc : env.getAttachment att.id = .record att.id b)
    (hb : b.truthy = true) :
    downloadAttachment (some p) env att = (.ok b, [.getAttachment att.id]) := by
  simp [downloadAttachment, hdl, hrid, hloc, hb]

/-- Witness for `downloadAttachment_cache_first`. -/
theorem downloadAttachment_cache_first_witness :
    downloadAttachment (some ⟨"p", true, true, true, true⟩)
        ⟨fun _ => .record "a1" (.blob "CACHED"), fun _ => .error "unused",
         fun _ => .ok "REMOTE"⟩
        ⟨"a1", "f.png", "image/png", some "r1", "synced", none⟩
      = (.ok (.blob "CACHED"), [.getAttachment "a1"]) :=
  downloadAttachment_cache_first ⟨"p", true, true, true, true⟩
    ⟨fun _ => .record "a1" (.blob "CACHED"), fun _ => .error "unused",
     fun _ => .ok "REMOTE"⟩
    ⟨"a1", "f.png", "image/png", some "r1", "synced", none⟩ "r1" (.blob "CACHED")
    rfl rfl rfl rfl

/-- C5: with three `local`-status attachments whose blobs are all found
by the Local Store lookup, and a provider whose upload rejects exactly
for the second one, `syncAttachments` still attempts and counts the
first and third uploads (uploaded = 2) and collects exactly one error
entry, identified by the second attachment's filename. -/
theorem syncAttachments_batch_isolation (p : AttachProvider) (env : AttachEnv)
    (metas : List AttachMeta) (a1 a2 a3 : AttachMeta) (b1 b2 b3 : JsVal)
    (r1 r3 msg : String)
    (hup : p.hasUploadAttachment = true)
    (hs1 : a1.syncStatus = "local") (hs2 : a2.syncStatus = "local")
    (hs3 : a3.syncStatus = "local")
    (hg1 : env.getAttachment a1.id = .record a1.id b1)
    (hg2 : env.getAttachment a2.id = .record a2.id b2)
    (hg3 : env.getAttachment a3.id = .record a3.id b3)
    (hb1 : b1.truthy = true) (hb2 : b2.truthy = true) (hb3 : b3.truthy = true)
    (hu1 : env.uploadResult a1.id = .ok r1)
    (hu2 : env.uploadResult a2.id = .error msg)
    (hu3 : env.uploadResult a3.id = .ok r3) :
    (syncAttachments (some p) env metas [a1, a2, a3]).1
      = ⟨2, 0, [⟨a2.filename, msg⟩]⟩
    ∧ AEffect.providerUpload a3.id a3.filename b3 a3.mimeType
        ∈ (syncAttachments (some p) env metas [a1, a2, a3]).2.2 := by
  constructor <;>
    simp [syncAttachments, syncAttachmentStep, uploadAttachment, hup,
          hs1, hs2, hs3, hg1, hg2, hg3, hb1, hb2, hb3, hu1, hu2, hu3]

/-- Witness for `syncAttachments_batch_isolation` at concrete inputs. -/
theorem syncAttachments_batch_isolation_witness :
    (syncAttachments
        (some ⟨"p", true, true, true, true⟩)
        ⟨fun i => .record i (.blob "B"),
         fun i => if i = "a2" then .error "boom" else .ok "rid",
         fun _ => .error "unused"⟩
        []
        [⟨"a1", "one.png", "image/png", none, "local", none⟩,
         ⟨"a2", "two.png", "image/png", none, "local", none⟩,
         ⟨"a3", "three.png", "image/png", none, "local", none⟩]).1
      = ⟨2, 0, [⟨"two.png", "boom"⟩]⟩
    ∧ AEffect.providerUpload "a3" "three.png" (.blob "B") "image/png"
        ∈ (syncAttachments
            (some ⟨"p", true, true, true, true⟩)
            ⟨fun i => .record i (.blob "B"),
             fun i => if i = "a2" then .error "boom" else .ok "rid",
             fun _ => .error "unused"⟩
            []
            [⟨"a1", "one.png", "image/png", none, "local", none⟩,
             ⟨"a2", "two.png", "image/png", none, "local", none⟩,
             ⟨"a3", "three.png", "image/png", none, "local", none⟩]).2.2 :=
  syncAttachments_batch_isolation ⟨"p", true, true, true, true⟩
    ⟨fun i => .record i (.blob "B"),
     fun i => if i = "a2" then .error "boom" else .ok "rid",
     fun _ => .error "unused"⟩
    []
    ⟨"a1", "one.png", "image/png", none, "local", none⟩
    ⟨"a2", "two.png", "image/png", none, "local", none⟩
    ⟨"a3", "three.png", "image/png", none, "local", none⟩
    (.blob "B") (.blob "B") (.blob "B") "rid" "rid" "boom"
    rfl rfl rfl rfl rfl rfl rfl rfl rfl rfl (by decide) (by decide) (by decide)

/-- The result and metadata components of one loop iteration do not
depend on the trace accumulated so far. -/
theorem syncAttachmentStep_components (prov : Option AttachProvider)
    (env : AttachEnv) (att : AttachMeta) (r : SyncAttachResult)
    (m : List AttachMeta) (t t' : List AEffect) :
    (syncAttachmentStep prov env (r, m, t) att).1
      = (syncAttachmentStep prov env (r, m, t') att).1
    ∧ (syncAttachmentStep prov env (r, m, t) att).2.1
      = (syncAttachmentStep prov env (r, m, t') att).2.1 := by
  unfold syncAttachmentStep
  cases h1 : att.syncStatus == "local"
  · cases h2 : att.syncStatus == "synced" && att.remoteId.isSome
    · simp [h1, h2]
    · cases h3 : (env.getAttachment att.id).truthy
          && (env.getAttachment att.id).blobProp.truthy
      · rcases hd : downloadAttachment prov env att with ⟨dres, dtr⟩
        cases dres <;> simp [h1, h2, h3, hd]
      · simp [h1, h2, h3]
  · cases h3 : (env.getAttachment att.id).truthy
        && (env.getAttachment att.id).blobProp.truthy
    · simp [h1, h3]
    · rcases hu : uploadAttachment prov env m att (env.getAttachment att.id).blobProp
        with ⟨ures, m1, utr⟩
      cases ures <;> simp [h1, h3, hu]

/-- The result and metadata components of the whole loop do not depend
on the trace accumulated so far. -/
theorem foldl_step_components (prov : Option AttachProvider) (env : AttachEnv)
    (l : List AttachMeta) :
    ∀ (r : SyncAttachResult) (m : List AttachMeta) (t t' : List AEffect),
      (l.foldl (syncAttachmentStep prov env) (r, m, t)).1
        = (l.foldl (syncAttachmentStep prov env) (r, m, t')).1
      ∧ (l.foldl (syncAttachmentStep prov env) (r, m, t)).2.1
        = (l.foldl (syncAttachmentStep prov env) (r, m, t')).2.1 := by
  induction l with
  | nil => exact fun r m t t' => ⟨rfl, rfl⟩
  | cons x xs ih =>
    intro r m t t'
    simp only [List.foldl_cons]
    obtain ⟨hr, hm⟩ := syncAttachmentStep_components prov env x r m t t'
    rcases hx1 : syncAttachmentStep prov env (r, m, t) x with ⟨r1, m1, t1⟩
    rcases hx2 : syncAttachmentStep prov env (r, m, t') x with ⟨r2, m2, t2⟩
    rw [hx1, hx2] at hr hm
    simp only at hr hm
    subst hr
    subst hm
    exact ih r1 m1 t1 t2

/-- A `local`-status attachment whose store lookup yields no truthy
`blob` field contributes nothing but its lookup to the iteration. -/
theorem syncAttachmentStep_skip (prov : Option AttachProvider) (env : AttachEnv)
    (att : AttachMeta) (r : SyncAttachResult) (m : List AttachMeta)
    (t : List AEffect) (hs : att.syncStatus = "local")
    (hb : ((env.getAttachment att.id).truthy
        && (env.getAttachment att.id).blobProp.truthy) = false) :
    syncAttachmentStep prov env (r, m, t) att
      = (r, m, t ++ [.getAttachment att.id]) := by
  simp [syncAttachmentStep, hs, hb]

/-- C10: a `local`-status attachment whose Local Store lookup yields no
value with a truthy `blob` field is silently skipped by
`syncAttachments`: alone it produces the zero result with only the
lookup in the trace (no provider call, no error entry), and inside any
batch it changes neither the result counts and error list nor the
persisted metadata. -/
theorem syncAttachments_skips_blobless (p : AttachProvider) (env : AttachEnv)
    (metas : List AttachMeta) (att : AttachMeta) (pre post : List AttachMeta)
    (hs : att.syncStatus = "local")
    (hb : ((env.getAttachment att.id).truthy
        && (env.getAttachment att.id).blobProp.truthy) = false) :
    syncAttachments (some p) env metas [att]
      = (⟨0, 0, []⟩, metas, [.getAttachment att.id])
    ∧ (syncAttachments (some p) env metas (pre ++ att :: post)).1
        = (syncAttachments (some p) env metas (pre ++ post)).1
    ∧ (syncAttachments (some p) env metas (pre ++ att :: post)).2.1
        = (syncAttachments (some p) env metas (pre ++ post)).2.1 := by
  have hone : syncAttachments (some p) env metas [att]
      = syncAttachmentStep (some p) env (⟨0, 0, []⟩, metas, []) att := rfl
  have hsplit : ∀ l2 : List AttachMeta,
      syncAttachments (some p) env metas (pre ++ l2)
        = l2.foldl (syncAttachmentStep (some p) env)
            (pre.foldl (syncAttachmentStep (some p) env) (⟨0, 0, []⟩, metas, [])) := by
    intro l2
    show (pre ++ l2).foldl (syncAttachmentStep (some p) env) (⟨0, 0, []⟩, metas, []) = _
    rw [List.foldl_append]
  rcases hacc : pre.foldl (syncAttachmentStep (some p) env) (⟨0, 0, []⟩, metas, [])
    with ⟨r0, m0, t0⟩
  refine ⟨?_, ?_, ?_⟩
  · rw [hone, syncAttachmentStep_skip (some p) env att _ _ _ hs hb]
    simp
  · rw [hsplit (att :: post), hsplit post, hacc, List.foldl_cons,
        syncAttachmentStep_skip (some p) env att _ _ _ hs hb]
    exact (foldl_step_components (some p) env post r0 m0
      (t0 ++ [.getAttachment att.id]) t0).1
  · rw [hsplit (att :: post), hsplit post, hacc, List.foldl_cons,
        syncAttachmentStep_skip (some p) env att _ _ _ hs hb]
    exact (foldl_step_components (some p) env post r0 m0
      (t0 ++ [.getAttachment att.id]) t0).2

/-- Witness for `syncAttachments_skips_blobless` at a concrete store
without the blob. -/
theorem syncAttachments_skips_blobless_witness :
    syncAttachments (some ⟨"p", true, true, true, true⟩)
        ⟨fun _ => .undefined, fun _ => .ok "rid", fun _ => .ok "B"⟩
        [] [⟨"a1", "one.png", "image/png", none, "local", none⟩]
      = (⟨0, 0, []⟩, [], [.getAttachment "a1"])
    ∧ (syncAttachments (some ⟨"p", true, true, true, true⟩)
        ⟨fun _ => .undefined, fun _ => .ok "rid", fun _ => .ok "B"⟩
        [] ([] ++ ⟨"a1", "one.png", "image/png", none, "local", none⟩ :: [])).1
        = (syncAttachments (some ⟨"p", true, true, true, true⟩)
            ⟨fun _ => .undefined, fun _ => .ok "rid", fun _ => .ok "B"⟩
            [] ([] ++ [])).1
    ∧ (syncAttachments (some ⟨"p", true, true, true, true⟩)
        ⟨fun _ => .undefined, fun _ => .ok "rid", fun _ => .ok "B"⟩
        [] ([] ++ ⟨"a1", "one.png", "image/png", none, "local", none⟩ :: [])).2.1
        = (syncAttachments (some ⟨"p", true, true, true, true⟩)
            ⟨fun _ => .undefined, fun _ => .ok "rid", fun _ => .ok "B"⟩
            [] ([] ++ [])).2.1 :=
  syncAttachments_skips_blobless ⟨"p", true, true, true, true⟩
    ⟨fun _ => .undefined, fun _ => .ok "rid", fun _ => .ok "B"⟩
    [] ⟨"a1", "one.png", "image/png", none, "local", none⟩ [] []
    rfl rfl

end Scribe
